import Mathlib

/-
  Verification development for the civet CI scheduler core.

  The definitions below are a shallow embedding of the Python source:
    - src/ci/event.py        (status lattice, readiness engine, event ingestion)
    - src/ci/github/api.py   (is_collaborator)
    - src/client/BaseClient.py (run_claimed_job)

  Database rows become Lean structures, Django querysets become lists,
  Python sets become Finsets, and in-place row mutation becomes functional
  update.  Enumeration constants live in the absent models.py, so their
  numeric values are modelled from the spec (only distinctness matters).
-/

set_option maxRecDepth 4000

namespace Civet

/-- Modelled from the spec: models.JobStatus constants (models.py is not in
the sources; statuses are Nat codes, only distinctness is relied upon).
The dominance order is Failed > Canceled > FailedOk > Running > NotStarted
> Success. -/
def JobStatus.NOT_STARTED : Nat := 0

def JobStatus.SUCCESS : Nat := 1

def JobStatus.RUNNING : Nat := 2

def JobStatus.FAILED : Nat := 3

def JobStatus.FAILED_OK : Nat := 4

def JobStatus.CANCELED : Nat := 5

/-- Modelled from the spec: models.Recipe activation-policy constants. -/
def RecipeAuto.FULL_AUTO : Nat := 0

def RecipeAuto.MANUAL : Nat := 1

def RecipeAuto.AUTO_FOR_AUTHORIZED : Nat := 2

/-- Modelled from the spec: models.Event / models.Recipe cause constant for pushes. -/
def CAUSE_PUSH : Nat := 0

/-- A build recipe (models.Recipe row).  Users, repositories and build
configurations are identified by Nat ids.  dependencies holds the rids of
the dependency recipes.  abort_on_failure is the non-fatal flag named by
the spec (field of the absent models.py, modelled from the spec). -/
structure Recipe where
  rid : Nat
  active : Bool
  automatic : Nat
  auto_authorized : List Nat
  build_configs : List Nat
  dependencies : List Nat
  repoOwner : Nat
  abort_on_failure : Bool
  deriving Repr, DecidableEq

/-- A job (models.Job row).  step_results holds the statuses of the
StepResults accumulated by the job, which is all job_status reads. -/
structure Job where
  jid : Nat
  recipe : Recipe
  config : Nat
  active : Bool
  ready : Bool
  complete : Bool
  status : Nat
  step_results : List Nat
  deriving Repr, DecidableEq

/-- An event (models.Event row) together with the jobs it owns
(event.jobs reverse relation).  String fields (description,
comments_url, json_data) are not modelled; no claim mentions them. -/
structure Event where
  build_user : Nat
  head : Nat
  base : Nat
  cause : Nat
  complete : Bool
  status : Nat
  jobs : List Job
  deriving Repr, DecidableEq

/-- src/ci/event.py get_status: first status of the preference order that
is a member of the set wins; empty or unrecognized-only sets give SUCCESS. -/
def get_status (status : Finset Nat) : Nat :=
  if JobStatus.FAILED ∈ status then JobStatus.FAILED
  else if JobStatus.CANCELED ∈ status then JobStatus.CANCELED
  else if JobStatus.FAILED_OK ∈ status then JobStatus.FAILED_OK
  else if JobStatus.RUNNING ∈ status then JobStatus.RUNNING
  else if JobStatus.NOT_STARTED ∈ status then JobStatus.NOT_STARTED
  else if JobStatus.SUCCESS ∈ status then JobStatus.SUCCESS
  else JobStatus.SUCCESS

/-- src/ci/event.py job_status: the set of step-result statuses, aggregated. -/
def job_status (job : Job) : Nat :=
  get_status job.step_results.toFinset

/-- src/ci/event.py event_status: the set of the jobs' aggregated statuses,
aggregated again.  Note: no reclassification of any kind happens here. -/
def event_status (ev : Event) : Nat :=
  get_status (ev.jobs.map job_status).toFinset

/-- Spec-side view: whether a status code is one of the six recognized
Outcome values (anything else is an unrecognized value). -/
def recognized (s : Nat) : Bool :=
  s == JobStatus.FAILED || s == JobStatus.CANCELED || s == JobStatus.FAILED_OK ||
  s == JobStatus.RUNNING || s == JobStatus.NOT_STARTED || s == JobStatus.SUCCESS

/-- Spec-side view: dominance rank of a status (Failed most dominant). -/
def rank (s : Nat) : Nat :=
  if s == JobStatus.FAILED then 5
  else if s == JobStatus.CANCELED then 4
  else if s == JobStatus.FAILED_OK then 3
  else if s == JobStatus.RUNNING then 2
  else if s == JobStatus.NOT_STARTED then 1
  else 0

/-- src/ci/event.py cancel_event, per-job part: an incomplete job gets
status CANCELED and is marked complete; a complete job is untouched. -/
def cancel_job (job : Job) : Job :=
  if job.complete then job
  else { job with status := JobStatus.CANCELED, complete := true }

/-- src/ci/event.py cancel_event: cancel every incomplete job, then mark
the event complete with status CANCELED. -/
def cancel_event (ev : Event) : Event :=
  { ev with jobs := ev.jobs.map cancel_job,
            complete := true,
            status := JobStatus.CANCELED }

/-- src/ci/event.py make_jobs_ready inner loop condition: for every
dependency recipe of the job's recipe, the set of that recipe's jobs
scoped to this event (dep.jobs.filter(event=event)) must be a subset of
the completed-jobs set, i.e. every such job must be complete. -/
def deps_met (ev : Event) (job : Job) : Bool :=
  job.recipe.dependencies.all fun dep =>
    (ev.jobs.filter fun j => j.recipe.rid == dep).all fun j => j.complete

/-- src/ci/event.py make_jobs_ready per-job update: only active jobs are
visited; the ready flag is written only when it changes. -/
def update_ready (ev : Event) (job : Job) : Job :=
  if job.active then
    if job.ready != deps_met ev job then { job with ready := deps_met ev job } else job
  else job

/-- src/ci/event.py make_jobs_ready completion test:
event.jobs.count() == event.jobs.filter(complete=True).count(). -/
def allComplete (ev : Event) : Bool :=
  ev.jobs.length == (ev.jobs.filter fun j => j.complete).length

/-- src/ci/event.py make_jobs_ready: if every job is complete, mark the
event complete and stop; if the aggregated status is FAILED or CANCELED,
stop without touching any ready flag; otherwise recompute every active
job's ready flag from its recipe dependencies. -/
def make_jobs_ready (ev : Event) : Event :=
  if allComplete ev then { ev with complete := true }
  else if event_status ev == JobStatus.FAILED || event_status ev == JobStatus.CANCELED then ev
  else { ev with jobs := ev.jobs.map (update_ready ev) }

/-- Environment step for the temporal claims: either the external job
execution collaborator reports a terminal outcome for job jid (recording
its step-result statuses and marking it complete), or the readiness
engine runs. -/
inductive TraceStep where
  | completeJob (jid : Nat) (steps : List Nat)
  | makeReady
  deriving Repr, DecidableEq

/-- Apply one environment step to an event. -/
def applyStep (ev : Event) : TraceStep → Event
  | TraceStep.completeJob jid sts =>
      { ev with jobs := ev.jobs.map fun j =>
          if j.jid == jid then
            { j with complete := true, step_results := sts,
                     status := get_status sts.toFinset }
          else j }
  | TraceStep.makeReady => make_jobs_ready ev

/-- Run a list of environment steps. -/
def runTrace (ev : Event) (tr : List TraceStep) : Event :=
  tr.foldl applyStep ev

/-- The fail-fast hypothesis of the temporal claim: the aggregated event
status is FAILED or CANCELED. -/
def failedOrCanceled (ev : Event) : Bool :=
  event_status ev == JobStatus.FAILED || event_status ev == JobStatus.CANCELED

/-- The FAILED/CANCELED status holds whenever make_jobs_ready is invoked
along the trace. -/
def statusPersists (ev : Event) : List TraceStep → Bool
  | [] => true
  | s :: rest =>
      (match s with
       | TraceStep.makeReady => failedOrCanceled ev
       | TraceStep.completeJob _ _ => true) && statusPersists (applyStep ev s) rest

/-- The ready flags of an event's jobs, in job order. -/
def readyFlags (ev : Event) : List Bool :=
  ev.jobs.map fun j => j.ready

/-! ### Push event ingestion (src/ci/event.py PushEvent) -/

/-- The identical input of a PushEvent.save invocation: the build user,
head/base commits (commit creation via GitCommitData is key-idempotent
get-or-create plumbing and is not re-modelled), and the recipe queryset
the filter returns for that input. -/
structure PushInput where
  build_user : Nat
  head : Nat
  base : Nat
  recipes : List Recipe
  deriving Repr, DecidableEq

/-- The lookup keys of the Event get_or_create in PushEvent.save:
build_user, head, base, complete=False, cause=PUSH. -/
def eventMatches (inp : PushInput) (e : Event) : Bool :=
  e.build_user == inp.build_user && e.head == inp.head && e.base == inp.base &&
  e.complete == false && e.cause == CAUSE_PUSH

/-- The Event row created when the get_or_create lookup misses. -/
def newPushEvent (inp : PushInput) : Event :=
  { build_user := inp.build_user, head := inp.head, base := inp.base,
    cause := CAUSE_PUSH, complete := false,
    status := JobStatus.NOT_STARTED, jobs := [] }

/-- Is there a job for this (recipe, build config) pair (the lookup keys
of the Job get_or_create)? -/
def hasJob (rid c : Nat) (js : List Job) : Bool :=
  js.any fun j => j.recipe.rid == rid && j.config == c

/-- The Job row created by PushEvent._process_recipes when the
get_or_create lookup misses: active unless the recipe is MANUAL,
not ready, not complete.  status defaults to NOT_STARTED (DB column
default, modelled from the spec; PushEvent does not set it). -/
def newPushJob (r : Recipe) (c : Nat) : Job :=
  { jid := 0, recipe := r, config := c,
    active := !(r.automatic == RecipeAuto.MANUAL),
    ready := false, complete := false,
    status := JobStatus.NOT_STARTED, step_results := [] }

/-- Job get_or_create for one (recipe, config) pair. -/
def ensureJob (r : Recipe) (c : Nat) (js : List Job) : List Job :=
  if hasJob r.rid c js then js else js ++ [newPushJob r c]

/-- PushEvent._process_recipes body for one recipe: skipped when
inactive, otherwise one Job get_or_create per build config. -/
def addRecipeJobs (js : List Job) (r : Recipe) : List Job :=
  if r.active then r.build_configs.foldl (fun a c => ensureJob r c a) js else js

/-- The job list produced by PushEvent._process_recipes. -/
def prpJobs (rs : List Recipe) (js : List Job) : List Job :=
  rs.foldl addRecipeJobs js

/-- PushEvent._process_recipes on an event (job creation only; the
trailing make_jobs_ready call is composed in pushProcess). -/
def processRecipesPush (rs : List Recipe) (ev : Event) : Event :=
  { ev with jobs := prpJobs rs ev.jobs }

/-- What PushEvent.save does to the materialized event: create the
missing jobs, then run the readiness engine. -/
def pushProcess (inp : PushInput) (ev : Event) : Event :=
  make_jobs_ready (processRecipesPush inp.recipes ev)

/-- Persist an update to the row the get_or_create lookup found (the
first matching row). -/
def updateFirstMatch (p : Event → Bool) (f : Event → Event) : List Event → List Event
  | [] => []
  | e :: es => if p e then f e :: es else e :: updateFirstMatch p f es

/-- src/ci/event.py PushEvent.save over the events table: return early
when no recipe matches; otherwise get_or_create the event and process it. -/
def PushEvent_save (inp : PushInput) (db : List Event) : List Event :=
  if inp.recipes.isEmpty then db
  else
    match db.find? (eventMatches inp) with
    | some _ => updateFirstMatch (eventMatches inp) (pushProcess inp) db
    | none => db ++ [pushProcess inp (newPushEvent inp)]

/-- The event row as left by PushEvent.save (the row it found, or the
fresh one, after processing). -/
def pushSaveEvent (inp : PushInput) (db : List Event) : Event :=
  pushProcess inp ((db.find? (eventMatches inp)).getD (newPushEvent inp))

/-! ### Pull request fan-out (src/ci/event.py PullRequestEvent) -/

/-- src/ci/github/api.py GitHubAPI.is_collaborator: the repository owner
is always a collaborator; anyone else is checked against the remote
endpoint (abstracted as the oracle remote, true iff the request returns
204). -/
def is_collaborator (remote : Nat → Bool) (user : Nat) (repoOwner : Nat) : Bool :=
  if repoOwner == user then true else remote user

/-- src/ci/event.py PullRequestEvent._check_recipe activation logic.
Note: the source rebinds its user parameter to pr.repository.user before
any policy check, so only the pull request repository's owner
(prRepoOwner) is ever consulted; the triggering/build user passed in is
ignored. -/
def check_recipe_active (recipe : Recipe) (prRepoOwner : Nat) (remote : Nat → Bool) : Bool :=
  if recipe.automatic == RecipeAuto.FULL_AUTO then true
  else if recipe.automatic == RecipeAuto.MANUAL then false
  else if recipe.automatic == RecipeAuto.AUTO_FOR_AUTHORIZED then
    if recipe.auto_authorized.contains prRepoOwner then true
    else is_collaborator remote prRepoOwner recipe.repoOwner
  else false

/-- The Job row created by _check_recipe for one build config. -/
def newPRJob (r : Recipe) (c : Nat) (active : Bool) : Job :=
  { jid := 0, recipe := r, config := c, active := active,
    ready := false, complete := false,
    status := JobStatus.NOT_STARTED, step_results := [] }

/-- src/ci/event.py PullRequestEvent._check_recipe: skip inactive
recipes; compute the activation flag once, then get_or_create one job
per build config carrying that flag. -/
def check_recipe (recipe : Recipe) (prRepoOwner : Nat) (remote : Nat → Bool)
    (js : List Job) : List Job :=
  if recipe.active then
    let active := check_recipe_active recipe prRepoOwner remote
    recipe.build_configs.foldl
      (fun a c => if hasJob recipe.rid c a then a else a ++ [newPRJob recipe c active]) js
  else js

/-- Jobs of an ok result; none for an error. -/
def okJobs : Except String (List Job) → List Job
  | Except.ok js => js
  | Except.error _ => []

/-- src/ci/event.py PullRequestEvent._process_recipes: a plain for-loop
over the recipes with no per-recipe exception handling.  check abstracts
one recipe's processing (job creation plus the remote status/comment
calls); an error models the exception that aborts the loop.  Returns the
jobs created before the abort and the exception, if any. -/
def prProcessRecipes (check : Recipe → Except String (List Job)) :
    List Recipe → List Job × Option String
  | [] => ([], none)
  | r :: rs =>
      match check r with
      | Except.error e => ([], some e)
      | Except.ok js =>
          let rest := prProcessRecipes check rs
          (js ++ rest.1, rest.2)

/-- src/ci/event.py PullRequestEvent.save fan-out: _process_recipes then
make_jobs_ready, wrapped in one try/except whose handler only logs.  On
an exception the jobs already created persist, the remaining recipes are
never reached, make_jobs_ready is skipped, and the logged message is
returned instead of the exception propagating. -/
def PullRequestEvent_fanout (check : Recipe → Except String (List Job))
    (recipes : List Recipe) (ev : Event) : Event × Option String :=
  let res := prProcessRecipes check recipes
  match res.2 with
  | some e => ({ ev with jobs := ev.jobs ++ res.1 }, some e)
  | none => (make_jobs_ready { ev with jobs := ev.jobs ++ res.1 }, none)

/-! ### Client scheduler loop (src/client/BaseClient.py) -/

/-- The observable actions of BaseClient.run_claimed_job, in program
order. -/
inductive ClientAction where
  | controlMsg (server : Nat) (busyElsewhere : Bool)
  | runJob
  | joinMessageQ
  | putQuit
  | joinUpdater
  | clearCommandQ
  deriving Repr, DecidableEq

/-- How the claimed run ended: stopped (graceful stop) or canceled; both
false means the run finished on its own, in success or failure. -/
structure RunResult where
  stopped : Bool
  canceled : Bool
  deriving Repr, DecidableEq

/-- src/client/BaseClient.py run_claimed_job: post one control message
per configured server, run the job, join message_q only when the runner
was neither stopped nor canceled, then enqueue Quit, join the updater
thread and clear the command queue.  The function returns (and hence the
next claim attempt starts) only after this whole list. -/
def run_claimed_job (servers : List Nat) (server : Nat) (res : RunResult) :
    List ClientAction :=
  (servers.map fun s => ClientAction.controlMsg s (s != server)) ++
  [ClientAction.runJob] ++
  (if !res.stopped && !res.canceled then [ClientAction.joinMessageQ] else []) ++
  [ClientAction.putQuit, ClientAction.joinUpdater, ClientAction.clearCommandQ]

/-! ### Concrete instances used by counterexamples and witnesses -/

/-- A recipe configured as non-fatal (abort_on_failure = false). -/
def nonFatalRecipe : Recipe :=
  { rid := 1, active := true, automatic := RecipeAuto.FULL_AUTO,
    auto_authorized := [], build_configs := [0], dependencies := [],
    repoOwner := 0, abort_on_failure := false }

/-- A job of the non-fatal recipe whose only step result is FAILED. -/
def failedJobC1 : Job :=
  { jid := 1, recipe := nonFatalRecipe, config := 0, active := true,
    ready := true, complete := true, status := JobStatus.FAILED,
    step_results := [JobStatus.FAILED] }

/-- An event owning just that failed non-fatal job. -/
def failedEventC1 : Event :=
  { build_user := 0, head := 0, base := 0, cause := CAUSE_PUSH,
    complete := false, status := JobStatus.NOT_STARTED, jobs := [failedJobC1] }

/-- Recipe with no dependencies. -/
def recipeA : Recipe :=
  { rid := 10, active := true, automatic := RecipeAuto.FULL_AUTO,
    auto_authorized := [], build_configs := [0], dependencies := [],
    repoOwner := 0, abort_on_failure := true }

/-- Recipe depending on recipeA. -/
def recipeB : Recipe :=
  { rid := 11, active := true, automatic := RecipeAuto.FULL_AUTO,
    auto_authorized := [], build_configs := [0], dependencies := [10],
    repoOwner := 0, abort_on_failure := true }

/-- Incomplete job of recipeA. -/
def jobA : Job :=
  { jid := 20, recipe := recipeA, config := 0, active := true,
    ready := true, complete := false, status := JobStatus.NOT_STARTED,
    step_results := [] }

/-- Incomplete job of recipeB, waiting on jobA. -/
def jobB : Job :=
  { jid := 21, recipe := recipeB, config := 0, active := true,
    ready := false, complete := false, status := JobStatus.NOT_STARTED,
    step_results := [] }

/-- Healthy two-job event (status SUCCESS, nothing complete). -/
def eventAB : Event :=
  { build_user := 0, head := 0, base := 0, cause := CAUSE_PUSH,
    complete := false, status := JobStatus.NOT_STARTED, jobs := [jobA, jobB] }

/-- jobA after failing: complete, with a FAILED step result. -/
def jobAFailed : Job :=
  { jobA with complete := true, status := JobStatus.FAILED, step_results := [JobStatus.FAILED] }

/-- jobA after succeeding: complete, with a SUCCESS step result. -/
def jobADone : Job :=
  { jobA with complete := true, status := JobStatus.SUCCESS, step_results := [JobStatus.SUCCESS] }

/-- Event with one failed complete job and one incomplete dependent job:
its aggregated status is FAILED while jobs remain incomplete. -/
def failedEventC3 : Event :=
  { build_user := 0, head := 0, base := 0, cause := CAUSE_PUSH,
    complete := false, status := JobStatus.NOT_STARTED,
    jobs := [jobAFailed, jobB] }

/-- A trace where another dependency job completes successfully and the
readiness engine runs again afterwards. -/
def traceC3 : List TraceStep :=
  [TraceStep.completeJob 21 [JobStatus.SUCCESS], TraceStep.makeReady]

/-- Event with one complete and one incomplete job, for cancel_event. -/
def eventC9 : Event :=
  { build_user := 0, head := 0, base := 0, cause := CAUSE_PUSH,
    complete := false, status := JobStatus.NOT_STARTED,
    jobs := [jobADone, jobB] }

/-- Two recipes for the pull-request fan-out counterexample. -/
def prRecipe1 : Recipe :=
  { rid := 31, active := true, automatic := RecipeAuto.FULL_AUTO,
    auto_authorized := [], build_configs := [0], dependencies := [],
    repoOwner := 0, abort_on_failure := true }

def prRecipe2 : Recipe :=
  { rid := 32, active := true, automatic := RecipeAuto.FULL_AUTO,
    auto_authorized := [], build_configs := [0], dependencies := [],
    repoOwner := 0, abort_on_failure := true }

/-- The job recipe 32 would create. -/
def prJob2 : Job := newPRJob prRecipe2 0 true

/-- Per-recipe processing oracle: recipe 31 hits a remote-API failure,
recipe 32 would succeed and create its job. -/
def failingCheck (r : Recipe) : Except String (List Job) :=
  if r.rid == 31 then Except.error "remote API failure"
  else Except.ok [prJob2]

/-- Empty pull-request event for the fan-out counterexample. -/
def prEvent5 : Event :=
  { build_user := 0, head := 0, base := 0, cause := CAUSE_PUSH,
    complete := false, status := JobStatus.NOT_STARTED, jobs := [] }

/-- Oracle where every recipe processes cleanly. -/
def okCheck (r : Recipe) : Except String (List Job) :=
  Except.ok [newPRJob r 0 true]

/-- auto-for-authorized recipe whose explicit authorized list holds the
triggering user (id 7) but not the repository owner (id 3). -/
def authRecipe : Recipe :=
  { rid := 41, active := true, automatic := RecipeAuto.AUTO_FOR_AUTHORIZED,
    auto_authorized := [7], build_configs := [0], dependencies := [],
    repoOwner := 5, abort_on_failure := true }

/-- The id of the triggering user in the C6 scenario. -/
def triggerUser6 : Nat := 7

/-- The id of the pull request repository's owner in the C6 scenario. -/
def repoOwner6 : Nat := 3

/-- Remote collaborator endpoint returning 204 exactly for the
triggering user. -/
def remote6 (u : Nat) : Bool := u == triggerUser6

/-- Push input whose single matching recipe has no build configuration,
so the first save creates an event with no jobs, which make_jobs_ready
immediately completes. -/
def noConfigInput : PushInput :=
  { build_user := 0, head := 1, base := 2,
    recipes := [{ rid := 51, active := true, automatic := RecipeAuto.FULL_AUTO,
                  auto_authorized := [], build_configs := [], dependencies := [],
                  repoOwner := 0, abort_on_failure := true }] }

/-- Ordinary push input: one recipe, one build configuration. -/
def pushInput8 : PushInput :=
  { build_user := 0, head := 1, base := 2,
    recipes := [{ rid := 52, active := true, automatic := RecipeAuto.FULL_AUTO,
                  auto_authorized := [], build_configs := [0], dependencies := [],
                  repoOwner := 0, abort_on_failure := true }] }

/-! ## Lemmas about the status lattice -/

theorem rank_le_five (y : Nat) : rank y ≤ 5 := by
  unfold rank
  repeat' split
  all_goals decide

theorem recognized_cases (y : Nat) (h : recognized y = true) :
    y = JobStatus.FAILED ∨ y = JobStatus.CANCELED ∨ y = JobStatus.FAILED_OK ∨
    y = JobStatus.RUNNING ∨ y = JobStatus.NOT_STARTED ∨ y = JobStatus.SUCCESS := by
  simp only [recognized, Bool.or_eq_true, beq_iff_eq] at h
  tauto

theorem get_status_of_failed {s : Finset Nat} (h : JobStatus.FAILED ∈ s) :
    get_status s = JobStatus.FAILED := by
  simp [get_status, h]

/-- C4: get_status returns the most dominant member present under the
fixed dominance order Failed > Canceled > FailedOk > Running >
NotStarted > Success; it returns Success when the set is empty or
contains only Success or unrecognized values; it is a total function and
(being defined on Finset, and invariant under permutation of an input
list) independent of iteration order. -/
theorem claim_C4_aggregate_dominance :
    (∀ s : Finset Nat, (∃ x ∈ s, recognized x = true) →
        get_status s ∈ s ∧ recognized (get_status s) = true ∧
        ∀ y ∈ s, recognized y = true → rank y ≤ rank (get_status s)) ∧
    (∀ s : Finset Nat, (∀ x ∈ s, recognized x = true → x = JobStatus.SUCCESS) →
        get_status s = JobStatus.SUCCESS) ∧
    (∀ lone ltwo : List Nat, lone.Perm ltwo →
        get_status lone.toFinset = get_status ltwo.toFinset) := by
  refine ⟨?_, ?_, ?_⟩
  · rintro s ⟨x, hx, hrx⟩
    by_cases hF : JobStatus.FAILED ∈ s
    · have hg : get_status s = JobStatus.FAILED := get_status_of_failed hF
      rw [hg]
      refine ⟨hF, by decide, fun y _ _ => ?_⟩
      have h5 : rank JobStatus.FAILED = 5 := by decide
      rw [h5]; exact rank_le_five y
    · by_cases hC : JobStatus.CANCELED ∈ s
      · have hg : get_status s = JobStatus.CANCELED := by simp [get_status, hF, hC]
        rw [hg]
        refine ⟨hC, by decide, fun y hy hry => ?_⟩
        rcases recognized_cases y hry with h | h | h | h | h | h <;> subst h
        · exact absurd hy hF
        all_goals decide
      · by_cases hFO : JobStatus.FAILED_OK ∈ s
        · have hg : get_status s = JobStatus.FAILED_OK := by simp [get_status, hF, hC, hFO]
          rw [hg]
          refine ⟨hFO, by decide, fun y hy hry => ?_⟩
          rcases recognized_cases y hry with h | h | h | h | h | h <;> subst h
          · exact absurd hy hF
          · exact absurd hy hC
          all_goals decide
        · by_cases hR : JobStatus.RUNNING ∈ s
          · have hg : get_status s = JobStatus.RUNNING := by
              simp [get_status, hF, hC, hFO, hR]
            rw [hg]
            refine ⟨hR, by decide, fun y hy hry => ?_⟩
            rcases recognized_cases y hry with h | h | h | h | h | h <;> subst h
            · exact absurd hy hF
            · exact absurd hy hC
            · exact absurd hy hFO
            all_goals decide
          · by_cases hNS : JobStatus.NOT_STARTED ∈ s
            · have hg : get_status s = JobStatus.NOT_STARTED := by
                simp [get_status, hF, hC, hFO, hR, hNS]
              rw [hg]
              refine ⟨hNS, by decide, fun y hy hry => ?_⟩
              rcases recognized_cases y hry with h | h | h | h | h | h <;> subst h
              · exact absurd hy hF
              · exact absurd hy hC
              · exact absurd hy hFO
              · exact absurd hy hR
              all_goals decide
            · have hS : JobStatus.SUCCESS ∈ s := by
                rcases recognized_cases x hrx with h | h | h | h | h | h <;> subst h
                · exact absurd hx hF
                · exact absurd hx hC
                · exact absurd hx hFO
                · exact absurd hx hR
                · exact absurd hx hNS
                · exact hx
              have hg : get_status s = JobStatus.SUCCESS := by
                simp [get_status, hF, hC, hFO, hR, hNS, hS]
              rw [hg]
              refine ⟨hS, by decide, fun y hy hry => ?_⟩
              rcases recognized_cases y hry with h | h | h | h | h | h <;> subst h
              · exact absurd hy hF
              · exact absurd hy hC
              · exact absurd hy hFO
              · exact absurd hy hR
              · exact absurd hy hNS
              · decide
  · intro s h
    have hF : JobStatus.FAILED ∉ s := fun hm => absurd (h _ hm (by decide)) (by decide)
    have hC : JobStatus.CANCELED ∉ s := fun hm => absurd (h _ hm (by decide)) (by decide)
    have hFO : JobStatus.FAILED_OK ∉ s := fun hm => absurd (h _ hm (by decide)) (by decide)
    have hR : JobStatus.RUNNING ∉ s := fun hm => absurd (h _ hm (by decide)) (by decide)
    have hNS : JobStatus.NOT_STARTED ∉ s := fun hm => absurd (h _ hm (by decide)) (by decide)
    simp [get_status, hF, hC, hFO, hR, hNS]
  · intro lone ltwo hp
    rw [List.toFinset_eq_of_perm _ _ hp]

/-- Witness for C4: concrete evaluations of the spec's examples through
the theorem. -/
theorem claim_C4_witness :
    get_status {JobStatus.FAILED, JobStatus.CANCELED} ∈
      ({JobStatus.FAILED, JobStatus.CANCELED} : Finset Nat) ∧
    get_status (∅ : Finset Nat) = JobStatus.SUCCESS ∧
    get_status {JobStatus.SUCCESS, JobStatus.RUNNING, JobStatus.FAILED_OK} =
      JobStatus.FAILED_OK :=
  ⟨(claim_C4_aggregate_dominance.1 _ ⟨JobStatus.FAILED, by decide, by decide⟩).1,
   claim_C4_aggregate_dominance.2.1 _ (by decide),
   by decide⟩

/-- C1 counterexample: a job whose aggregated outcome is FAILED and whose
recipe is non-fatal (abort_on_failure = false) is folded into the
event-level aggregate as FAILED, not FAILED_OK: event_status performs no
reclassification. -/
theorem claim_C1_counterexample :
    failedJobC1.recipe.abort_on_failure = false ∧
    job_status failedJobC1 = JobStatus.FAILED ∧
    event_status failedEventC1 = JobStatus.FAILED ∧
    JobStatus.FAILED ≠ JobStatus.FAILED_OK := by
  decide

/-- C1 amended: when event_status is computed, every job whose aggregated
outcome is FAILED is folded into the event-level aggregate as FAILED,
regardless of its recipe's abort_on_failure configuration (no
reclassification happens in this code). -/
theorem claim_C1_amended (ev : Event) (j : Job) (hj : j ∈ ev.jobs)
    (hf : job_status j = JobStatus.FAILED) : event_status ev = JobStatus.FAILED := by
  have hm : JobStatus.FAILED ∈ (ev.jobs.map job_status).toFinset := by
    rw [List.mem_toFinset]
    exact hf ▸ List.mem_map_of_mem job_status hj
  exact get_status_of_failed hm

/-- Witness for the amended C1 at the concrete failed event. -/
theorem claim_C1_amended_witness : event_status failedEventC1 = JobStatus.FAILED :=
  claim_C1_amended failedEventC1 failedJobC1 (by decide) (by decide)

/-! ## Lemmas about the readiness engine -/

theorem update_ready_eq (ev : Event) (j : Job) :
    update_ready ev j = if j.active then { j with ready := deps_met ev j } else j := by
  unfold update_ready
  split
  · split
    · rfl
    · rename_i hb
      have heq : j.ready = deps_met ev j := by simpa using hb
      rw [← heq]
  · rfl

theorem update_ready_recipe (ev : Event) (j : Job) : (update_ready ev j).recipe = j.recipe := by
  rw [update_ready_eq]; split <;> rfl

theorem update_ready_complete (ev : Event) (j : Job) :
    (update_ready ev j).complete = j.complete := by
  rw [update_ready_eq]; split <;> rfl

theorem update_ready_steps (ev : Event) (j : Job) :
    (update_ready ev j).step_results = j.step_results := by
  rw [update_ready_eq]; split <;> rfl

theorem mjr_all_complete {ev : Event} (h : allComplete ev = true) :
    make_jobs_ready ev = { ev with complete := true } := by
  unfold make_jobs_ready
  rw [h]
  simp

theorem mjr_failfast {ev : Event} (h1 : allComplete ev = false)
    (h2 : (event_status ev == JobStatus.FAILED || event_status ev == JobStatus.CANCELED) = true) :
    make_jobs_ready ev = ev := by
  unfold make_jobs_ready
  rw [h1, h2]
  simp

theorem mjr_main {ev : Event} (h1 : allComplete ev = false)
    (h2 : (event_status ev == JobStatus.FAILED || event_status ev == JobStatus.CANCELED) = false) :
    make_jobs_ready ev = { ev with jobs := ev.jobs.map (update_ready ev) } := by
  unfold make_jobs_ready
  rw [h1, h2]
  simp

theorem readyFlags_mjr_of_fc {ev : Event} (h : failedOrCanceled ev = true) :
    readyFlags (make_jobs_ready ev) = readyFlags ev := by
  by_cases hc : allComplete ev = true
  · rw [mjr_all_complete hc]
    rfl
  · have hc' : allComplete ev = false := by simpa using hc
    rw [mjr_failfast hc' h]

theorem readyFlags_applyStep_complete (ev : Event) (jid : Nat) (sts : List Nat) :
    readyFlags (applyStep ev (TraceStep.completeJob jid sts)) = readyFlags ev := by
  unfold applyStep readyFlags
  rw [List.map_map]
  exact List.map_congr_left fun j _ => by dsimp; split <;> rfl

/-- C2: after make_jobs_ready, provided not every job is complete and the
event status is neither FAILED nor CANCELED, the jobs are exactly the
input jobs with every active job's ready flag set iff all dependency
recipes' jobs of this event are complete (vacuously true when a
dependency recipe has no job here or there are no dependencies);
inactive jobs are untouched, hence never marked ready. -/
theorem claim_C2_make_jobs_ready (ev : Event)
    (h1 : allComplete ev = false)
    (h2 : event_status ev ≠ JobStatus.FAILED)
    (h3 : event_status ev ≠ JobStatus.CANCELED) :
    (make_jobs_ready ev).jobs = ev.jobs.map (update_ready ev) ∧
    (∀ j : Job, j.active = true →
      ((update_ready ev j).ready = true ↔
        ∀ dep ∈ j.recipe.dependencies, ∀ k ∈ ev.jobs, k.recipe.rid = dep → k.complete = true)) ∧
    (∀ j : Job, j.active = false → update_ready ev j = j) := by
  have hb : (event_status ev == JobStatus.FAILED || event_status ev == JobStatus.CANCELED) = false := by
    simp [h2, h3]
  refine ⟨by rw [mjr_main h1 hb], ?_, ?_⟩
  · intro j hact
    rw [update_ready_eq, hact]
    show deps_met ev j = true ↔ _
    unfold deps_met
    simp only [List.all_eq_true, List.mem_filter, beq_iff_eq, and_imp]
  · intro j hin
    rw [update_ready_eq, hin]
    rfl

/-- Witness for C2 at the concrete two-job event. -/
theorem claim_C2_witness :
    allComplete eventAB = false ∧
    (make_jobs_ready eventAB).jobs = eventAB.jobs.map (update_ready eventAB) :=
  ⟨by decide, (claim_C2_make_jobs_ready eventAB (by decide) (by decide) (by decide)).1⟩

/-- C3: while the event status is FAILED or CANCELED and jobs remain
incomplete, make_jobs_ready returns the event unchanged, and along any
trace of job completions and make_jobs_ready invocations during which
that status holds at every invocation, no ready flag ever changes. -/
theorem claim_C3_fail_fast (ev : Event) (tr : List TraceStep)
    (h1 : failedOrCanceled ev = true) (h2 : allComplete ev = false)
    (h3 : statusPersists ev tr = true) :
    make_jobs_ready ev = ev ∧ readyFlags (runTrace ev tr) = readyFlags ev := by
  refine ⟨mjr_failfast h2 h1, ?_⟩
  clear h1 h2
  induction tr generalizing ev with
  | nil => rfl
  | cons s rest ih =>
    unfold statusPersists at h3
    rw [Bool.and_eq_true] at h3
    obtain ⟨hs, hrest⟩ := h3
    have hstep : readyFlags (applyStep ev s) = readyFlags ev := by
      cases s with
      | completeJob jid sts => exact readyFlags_applyStep_complete ev jid sts
      | makeReady => exact readyFlags_mjr_of_fc (by simpa using hs)
    show readyFlags (runTrace (applyStep ev s) rest) = readyFlags ev
    rw [ih (applyStep ev s) hrest, hstep]

/-- Witness for C3 at the failed two-job event along a completion trace. -/
theorem claim_C3_witness :
    failedOrCanceled failedEventC3 = true ∧ allComplete failedEventC3 = false ∧
    statusPersists failedEventC3 traceC3 = true ∧
    make_jobs_ready failedEventC3 = failedEventC3 ∧
    readyFlags (runTrace failedEventC3 traceC3) = readyFlags failedEventC3 :=
  ⟨by decide, by decide, by decide,
   (claim_C3_fail_fast failedEventC3 traceC3 (by decide) (by decide) (by decide)).1,
   (claim_C3_fail_fast failedEventC3 traceC3 (by decide) (by decide) (by decide)).2⟩

theorem cancel_job_idem (j : Job) : cancel_job (cancel_job j) = cancel_job j := by
  unfold cancel_job
  split <;> simp

/-- C9: cancel_event completes every job (incomplete jobs get status
CANCELED and complete, complete jobs are kept as they are), marks the
event complete with status CANCELED, and is idempotent. -/
theorem claim_C9_cancel_event (ev : Event) :
    (∀ j ∈ (cancel_event ev).jobs, j.complete = true) ∧
    (∀ j ∈ ev.jobs, j.complete = false →
        { j with status := JobStatus.CANCELED, complete := true } ∈ (cancel_event ev).jobs) ∧
    (∀ j ∈ ev.jobs, j.complete = true → j ∈ (cancel_event ev).jobs) ∧
    (cancel_event ev).complete = true ∧
    (cancel_event ev).status = JobStatus.CANCELED ∧
    cancel_event (cancel_event ev) = cancel_event ev := by
  refine ⟨?_, ?_, ?_, rfl, rfl, ?_⟩
  · intro j hj
    rw [show (cancel_event ev).jobs = ev.jobs.map cancel_job from rfl] at hj
    rw [List.mem_map] at hj
    obtain ⟨a, _, rfl⟩ := hj
    unfold cancel_job
    split
    · assumption
    · rfl
  · intro j hj hc
    rw [show (cancel_event ev).jobs = ev.jobs.map cancel_job from rfl, List.mem_map]
    refine ⟨j, hj, ?_⟩
    unfold cancel_job
    rw [hc]
    rfl
  · intro j hj hc
    rw [show (cancel_event ev).jobs = ev.jobs.map cancel_job from rfl, List.mem_map]
    refine ⟨j, hj, ?_⟩
    unfold cancel_job
    rw [hc]
    simp
  · unfold cancel_event
    simp only [List.map_map]
    have hmm : List.map (cancel_job ∘ cancel_job) ev.jobs = List.map cancel_job ev.jobs :=
      List.map_congr_left fun j _ => by
        simp only [Function.comp_apply, cancel_job_idem]
    rw [hmm]

/-- Witness for C9 at a concrete half-complete event. -/
theorem claim_C9_witness :
    { jobB with status := JobStatus.CANCELED, complete := true } ∈ (cancel_event eventC9).jobs ∧
    jobADone ∈ (cancel_event eventC9).jobs ∧
    cancel_event (cancel_event eventC9) = cancel_event eventC9 :=
  ⟨(claim_C9_cancel_event eventC9).2.1 jobB (by decide) (by decide),
   (claim_C9_cancel_event eventC9).2.2.1 jobADone (by decide) (by decide),
   (claim_C9_cancel_event eventC9).2.2.2.2.2⟩

/-- C10: make_jobs_ready never writes the event's status field: when all
jobs are complete it sets only the complete flag, in the fail-fast branch
the event is returned untouched, and in the readiness-update branch only
the jobs change; push-recipe processing also leaves status alone, and
cancel_event is the operation that writes status (to CANCELED). -/
theorem claim_C10_frame (ev : Event) :
    (make_jobs_ready ev).status = ev.status ∧
    (allComplete ev = true → make_jobs_ready ev = { ev with complete := true }) ∧
    (allComplete ev = false →
      (event_status ev = JobStatus.FAILED ∨ event_status ev = JobStatus.CANCELED) →
      make_jobs_ready ev = ev) ∧
    (allComplete ev = false → event_status ev ≠ JobStatus.FAILED →
      event_status ev ≠ JobStatus.CANCELED →
      (make_jobs_ready ev).complete = ev.complete ∧
      (make_jobs_ready ev).build_user = ev.build_user ∧
      (make_jobs_ready ev).head = ev.head ∧ (make_jobs_ready ev).base = ev.base ∧
      (make_jobs_ready ev).cause = ev.cause) ∧
    (∀ rs : List Recipe, ∀ e : Event, (processRecipesPush rs e).status = e.status) ∧
    (cancel_event ev).status = JobStatus.CANCELED := by
  refine ⟨?_, fun h => mjr_all_complete h, ?_, ?_, fun rs e => rfl, rfl⟩
  · unfold make_jobs_ready
    repeat' split
    all_goals rfl
  · intro h1 h2
    refine mjr_failfast h1 ?_
    rcases h2 with h | h <;> simp [h]
  · intro h1 h2 h3
    have hb : (event_status ev == JobStatus.FAILED || event_status ev == JobStatus.CANCELED) = false := by
      simp [h2, h3]
    rw [mjr_main h1 hb]
    exact ⟨rfl, rfl, rfl, rfl, rfl⟩

/-- Witness for C10 at the failed two-job event. -/
theorem claim_C10_witness :
    (make_jobs_ready failedEventC3).status = failedEventC3.status ∧
    make_jobs_ready failedEventC3 = failedEventC3 :=
  ⟨(claim_C10_frame failedEventC3).1,
   (claim_C10_frame failedEventC3).2.2.1 (by decide) (Or.inl (by decide))⟩

/-! ## Pull request fan-out (C5, C6) -/

theorem prProcessRecipes_error (check : Recipe → Except String (List Job))
    (rs1 : List Recipe) (r : Recipe) (rs2 : List Recipe) (e : String)
    (h : ∀ a ∈ rs1, ∃ js, check a = Except.ok js) (he : check r = Except.error e) :
    prProcessRecipes check (rs1 ++ r :: rs2) =
      ((rs1.map fun a => okJobs (check a)).flatten, some e) := by
  induction rs1 with
  | nil =>
    simp only [List.nil_append, List.map_nil, List.flatten_nil]
    unfold prProcessRecipes
    rw [he]
  | cons a as ih =>
    obtain ⟨js, hjs⟩ := h a (List.mem_cons_self a as)
    have ih' := ih fun b hb => h b (List.mem_cons_of_mem a hb)
    simp only [List.cons_append, List.map_cons, List.flatten_cons]
    unfold prProcessRecipes
    rw [hjs, ih']
    rfl

/-- C5 counterexample: with two recipes in the ordered candidate list,
an exception while processing the first is indeed caught (the fan-out
returns instead of raising), but the second recipe is never processed:
its job is not created, refuting per-recipe error isolation. -/
theorem claim_C5_counterexample :
    failingCheck prRecipe2 = Except.ok [prJob2] ∧
    (PullRequestEvent_fanout failingCheck [prRecipe1, prRecipe2] prEvent5).2 =
      some "remote API failure" ∧
    (PullRequestEvent_fanout failingCheck [prRecipe1, prRecipe2] prEvent5).1.jobs = [] :=
  ⟨rfl, rfl, rfl⟩

/-- C5 amended: an exception raised while processing one recipe of the
PullRequestEvent fan-out is caught and logged at the level of the whole
fan-out (save's try/except), so it does not propagate to the caller, but
it aborts the loop: the jobs of the recipes before the failing one are
kept, every recipe after it is not processed (its jobs are not created)
and make_jobs_ready is skipped. -/
theorem claim_C5_fanout_abort (check : Recipe → Except String (List Job))
    (rs1 : List Recipe) (r : Recipe) (rs2 : List Recipe) (e : String) (ev : Event)
    (h : ∀ a ∈ rs1, ∃ js, check a = Except.ok js) (he : check r = Except.error e) :
    PullRequestEvent_fanout check (rs1 ++ r :: rs2) ev =
      ({ ev with jobs := ev.jobs ++ (rs1.map fun a => okJobs (check a)).flatten }, some e) := by
  unfold PullRequestEvent_fanout
  rw [prProcessRecipes_error check rs1 r rs2 e h he]

/-- Witness for the amended C5: one clean recipe before a failing one. -/
theorem claim_C5_witness :
    PullRequestEvent_fanout failingCheck ([prRecipe2] ++ prRecipe1 :: []) prEvent5 =
      ({ prEvent5 with
          jobs := prEvent5.jobs ++ ([prRecipe2].map fun a => okJobs (failingCheck a)).flatten },
        some "remote API failure") :=
  claim_C5_fanout_abort failingCheck [prRecipe2] prRecipe1 [] "remote API failure" prEvent5
    (fun a ha => ⟨[prJob2], by rw [List.mem_singleton] at ha; rw [ha]; rfl⟩) rfl

/-- C6 counterexample: an auto-for-authorized recipe whose explicit
authorized list contains the triggering user (id 7, who would also pass
the collaborator check), processed for a pull request whose repository
owner is id 3: the created job is inactive, because _check_recipe
rebinds user to pr.repository.user and never consults the triggering
user. -/
theorem claim_C6_counterexample :
    authRecipe.automatic = RecipeAuto.AUTO_FOR_AUTHORIZED ∧
    triggerUser6 ∈ authRecipe.auto_authorized ∧ remote6 triggerUser6 = true ∧
    check_recipe authRecipe repoOwner6 remote6 [] = [newPRJob authRecipe 0 false] := by
  decide

/-- C6 amended: for an auto-for-authorized recipe, every job created by
_check_recipe has its initial active flag true iff the pull request
repository's owner (not the triggering user) is in the recipe's explicit
authorized list or the collaborator check for that owner succeeds. -/
theorem claim_C6_active_flag (recipe : Recipe) (owner : Nat) (remote : Nat → Bool)
    (js : List Job) (h : recipe.automatic = RecipeAuto.AUTO_FOR_AUTHORIZED) :
    check_recipe_active recipe owner remote =
      (recipe.auto_authorized.contains owner ||
        is_collaborator remote owner recipe.repoOwner) ∧
    ∀ j ∈ check_recipe recipe owner remote js,
      j ∈ js ∨ j.active = check_recipe_active recipe owner remote := by
  constructor
  · by_cases hc : recipe.auto_authorized.contains owner <;>
      simp [check_recipe_active, h, hc, RecipeAuto.AUTO_FOR_AUTHORIZED,
        RecipeAuto.FULL_AUTO, RecipeAuto.MANUAL]
  · intro j hj
    unfold check_recipe at hj
    by_cases ha : recipe.active = true
    · rw [if_pos ha] at hj
      have key : ∀ (cs : List Nat) (acc : List Job), j ∈ cs.foldl
          (fun a c => if hasJob recipe.rid c a then a
            else a ++ [newPRJob recipe c (check_recipe_active recipe owner remote)]) acc →
          j ∈ acc ∨ j.active = check_recipe_active recipe owner remote := by
        intro cs
        induction cs with
        | nil => exact fun acc hj => Or.inl hj
        | cons c cs ih =>
          intro acc hj
          rw [List.foldl_cons] at hj
          rcases ih _ hj with hmem | hact
          · by_cases hc : hasJob recipe.rid c acc = true
            · rw [if_pos hc] at hmem
              exact Or.inl hmem
            · rw [if_neg hc] at hmem
              rcases List.mem_append.mp hmem with h1 | h1
              · exact Or.inl h1
              · right
                rw [List.mem_singleton] at h1
                rw [h1]
                rfl
          · exact Or.inr hact
      exact key recipe.build_configs js hj
    · rw [if_neg ha] at hj
      exact Or.inl hj

/-- Witness for the amended C6 at the concrete recipe and users. -/
theorem claim_C6_witness :
    check_recipe_active authRecipe repoOwner6 remote6 =
      (authRecipe.auto_authorized.contains repoOwner6 ||
        is_collaborator remote6 repoOwner6 authRecipe.repoOwner) :=
  (claim_C6_active_flag authRecipe repoOwner6 remote6 [] (by decide)).1

/-! ## Client scheduler loop (C7) -/

/-- C7 counterexample: when the claimed run finishes on its own the
worker joins the message queue, but when the run is canceled the join is
skipped, refuting the claim that the drain happens for success, failure
and cancellation alike. -/
theorem claim_C7_counterexample :
    ClientAction.joinMessageQ ∈ run_claimed_job [0] 0 { stopped := false, canceled := false } ∧
    ClientAction.joinMessageQ ∉ run_claimed_job [0] 0 { stopped := false, canceled := true } := by
  decide

/-- C7 amended: after a claimed run, the worker blocks on draining the
message queue exactly when the run was neither stopped nor canceled (so
a canceled or stopped run skips the drain); when it drains, the drain
sits between the run and the quit signal; and in every case the worker
signals the updater to quit, joins it and clears the command queue
before run_claimed_job returns, hence before the next claim attempt. -/
theorem claim_C7_reporting (servers : List Nat) (server : Nat) (res : RunResult) :
    (ClientAction.joinMessageQ ∈ run_claimed_job servers server res ↔
      res.stopped = false ∧ res.canceled = false) ∧
    (res.stopped = false → res.canceled = false →
      List.Sublist [ClientAction.runJob, ClientAction.joinMessageQ, ClientAction.putQuit,
        ClientAction.joinUpdater, ClientAction.clearCommandQ]
        (run_claimed_job servers server res)) ∧
    List.Sublist [ClientAction.runJob, ClientAction.putQuit, ClientAction.joinUpdater,
      ClientAction.clearCommandQ] (run_claimed_job servers server res) := by
  obtain ⟨st, ca⟩ := res
  have msgctl : ClientAction.joinMessageQ ∉
      servers.map fun s => ClientAction.controlMsg s (s != server) := by
    intro hmem
    rw [List.mem_map] at hmem
    obtain ⟨s, _, hs⟩ := hmem
    exact ClientAction.noConfusion hs
  cases st <;> cases ca <;> refine ⟨?_, ?_, ?_⟩
  · unfold run_claimed_job
    rw [List.append_assoc, List.append_assoc, List.mem_append]
    constructor
    · rintro (hm | hm)
      · exact absurd hm msgctl
      · exact ⟨rfl, rfl⟩
    · rintro ⟨_, _⟩
      right
      decide
  · intro _ _
    unfold run_claimed_job
    rw [List.append_assoc, List.append_assoc]
    exact List.Sublist.trans (by decide) (List.sublist_append_right _ _)
  · unfold run_claimed_job
    rw [List.append_assoc, List.append_assoc]
    exact List.Sublist.trans (by decide) (List.sublist_append_right _ _)
  · unfold run_claimed_job
    rw [List.append_assoc, List.append_assoc, List.mem_append]
    constructor
    · rintro (hm | hm)
      · exact absurd hm msgctl
      · exact absurd hm (by decide)
    · rintro ⟨_, h2⟩
      exact absurd h2 (by decide)
  · intro _ h2
    exact absurd h2 (by decide)
  · unfold run_claimed_job
    rw [List.append_assoc, List.append_assoc]
    exact List.Sublist.trans (by decide) (List.sublist_append_right _ _)
  · unfold run_claimed_job
    rw [List.append_assoc, List.append_assoc, List.mem_append]
    constructor
    · rintro (hm | hm)
      · exact absurd hm msgctl
      · exact absurd hm (by decide)
    · rintro ⟨h1, _⟩
      exact absurd h1 (by decide)
  · intro h1 _
    exact absurd h1 (by decide)
  · unfold run_claimed_job
    rw [List.append_assoc, List.append_assoc]
    exact List.Sublist.trans (by decide) (List.sublist_append_right _ _)
  · unfold run_claimed_job
    rw [List.append_assoc, List.append_assoc, List.mem_append]
    constructor
    · rintro (hm | hm)
      · exact absurd hm msgctl
      · exact absurd hm (by decide)
    · rintro ⟨h1, _⟩
      exact absurd h1 (by decide)
  · intro h1 _
    exact absurd h1 (by decide)
  · unfold run_claimed_job
    rw [List.append_assoc, List.append_assoc]
    exact List.Sublist.trans (by decide) (List.sublist_append_right _ _)

/-- Witness for the amended C7: a finished (neither stopped nor
canceled) run on a two-server configuration drains, quits and joins in
order. -/
theorem claim_C7_witness :
    List.Sublist [ClientAction.runJob, ClientAction.joinMessageQ, ClientAction.putQuit,
      ClientAction.joinUpdater, ClientAction.clearCommandQ]
      (run_claimed_job [0, 1] 0 { stopped := false, canceled := false }) :=
  (claim_C7_reporting [0, 1] 0 { stopped := false, canceled := false }).2.1 rfl rfl

/-! ## Push idempotence (C8): job get_or_create lemmas -/

theorem hasJob_append (rid c : Nat) (js l : List Job) :
    hasJob rid c (js ++ l) = (hasJob rid c js || hasJob rid c l) := by
  simp [hasJob, List.any_append]

theorem ensureJob_mono {rid c : Nat} {js : List Job} (r : Recipe) (cc : Nat)
    (h : hasJob rid c js = true) : hasJob rid c (ensureJob r cc js) = true := by
  unfold ensureJob
  split
  · exact h
  · rw [hasJob_append, h]
    rfl

theorem ensureJob_has (r : Recipe) (c : Nat) (js : List Job) :
    hasJob r.rid c (ensureJob r c js) = true := by
  unfold ensureJob
  split
  · assumption
  · rw [hasJob_append]
    have : hasJob r.rid c [newPushJob r c] = true := by
      simp [hasJob, newPushJob]
    rw [this]
    simp

theorem configsFold_mono {rid c : Nat} (r : Recipe) (cs : List Nat) :
    ∀ {js : List Job}, hasJob rid c js = true →
      hasJob rid c (cs.foldl (fun a cc => ensureJob r cc a) js) = true := by
  induction cs with
  | nil => exact fun h => h
  | cons cc cs ih =>
    intro js h
    rw [List.foldl_cons]
    exact ih (ensureJob_mono r cc h)

theorem configsFold_has (r : Recipe) {c : Nat} {cs : List Nat} (hc : c ∈ cs) :
    ∀ js : List Job, hasJob r.rid c (cs.foldl (fun a cc => ensureJob r cc a) js) = true := by
  induction cs with
  | nil => exact absurd hc (List.not_mem_nil c)
  | cons cc cs ih =>
    intro js
    rw [List.foldl_cons]
    rcases List.mem_cons.mp hc with hceq | hmem
    · subst hceq
      exact configsFold_mono r cs (ensureJob_has r c js)
    · exact ih hmem _

theorem addRecipeJobs_mono {rid c : Nat} {js : List Job} (r : Recipe)
    (h : hasJob rid c js = true) : hasJob rid c (addRecipeJobs js r) = true := by
  unfold addRecipeJobs
  split
  · exact configsFold_mono r r.build_configs h
  · exact h

theorem prpJobs_mono {rid c : Nat} (rs : List Recipe) :
    ∀ {js : List Job}, hasJob rid c js = true → hasJob rid c (prpJobs rs js) = true := by
  induction rs with
  | nil => exact fun h => h
  | cons r rs ih =>
    intro js h
    show hasJob rid c (prpJobs rs (addRecipeJobs js r)) = true
    exact ih (addRecipeJobs_mono r h)

theorem prpJobs_has {r : Recipe} {c : Nat} (rs : List Recipe) (hr : r ∈ rs)
    (hact : r.active = true) (hc : c ∈ r.build_configs) :
    ∀ js : List Job, hasJob r.rid c (prpJobs rs js) = true := by
  induction rs with
  | nil => exact absurd hr (List.not_mem_nil r)
  | cons a as ih =>
    intro js
    show hasJob r.rid c (prpJobs as (addRecipeJobs js a)) = true
    rcases List.mem_cons.mp hr with heq | hmem
    · subst heq
      refine prpJobs_mono as ?_
      unfold addRecipeJobs
      rw [if_pos hact]
      exact configsFold_has r hc js
    · exact ih hmem _

theorem ensureJob_noop {r : Recipe} {c : Nat} {js : List Job}
    (h : hasJob r.rid c js = true) : ensureJob r c js = js := by
  unfold ensureJob
  rw [if_pos h]

theorem configsFold_noop {r : Recipe} {cs : List Nat} {js : List Job}
    (h : ∀ c ∈ cs, hasJob r.rid c js = true) :
    cs.foldl (fun a cc => ensureJob r cc a) js = js := by
  induction cs with
  | nil => rfl
  | cons cc cs ih =>
    rw [List.foldl_cons, ensureJob_noop (h cc (List.mem_cons_self cc cs))]
    exact ih fun c hc => h c (List.mem_cons_of_mem cc hc)

theorem addRecipeJobs_noop {r : Recipe} {js : List Job}
    (h : r.active = true → ∀ c ∈ r.build_configs, hasJob r.rid c js = true) :
    addRecipeJobs js r = js := by
  unfold addRecipeJobs
  split
  · rename_i hact
    exact configsFold_noop (h hact)
  · rfl

theorem prpJobs_noop {rs : List Recipe} {js : List Job}
    (h : ∀ r ∈ rs, r.active = true → ∀ c ∈ r.build_configs, hasJob r.rid c js = true) :
    prpJobs rs js = js := by
  induction rs with
  | nil => rfl
  | cons a as ih =>
    show prpJobs as (addRecipeJobs js a) = js
    rw [addRecipeJobs_noop (h a (List.mem_cons_self a as))]
    exact ih fun r hr => h r (List.mem_cons_of_mem a hr)

theorem hasJob_map {rid c : Nat} (f : Job → Job)
    (hrec : ∀ j, (f j).recipe = j.recipe) (hcfg : ∀ j, (f j).config = j.config) :
    ∀ js : List Job, hasJob rid c (js.map f) = hasJob rid c js := by
  intro js
  induction js with
  | nil => rfl
  | cons j js ih =>
    simp only [List.map_cons, hasJob, List.any_cons] at ih ⊢
    rw [hrec j, hcfg j, ih]

/-! ## Push idempotence (C8): make_jobs_ready invariance and idempotence -/

theorem update_ready_config (ev : Event) (j : Job) : (update_ready ev j).config = j.config := by
  rw [update_ready_eq]; split <;> rfl

theorem update_ready_active (ev : Event) (j : Job) : (update_ready ev j).active = j.active := by
  rw [update_ready_eq]; split <;> rfl

theorem update_ready_ready_val (ev : Event) (j : Job) (h : j.active = true) :
    (update_ready ev j).ready = deps_met ev j := by
  rw [update_ready_eq, if_pos h]

theorem update_ready_of_inactive (ev : Event) (j : Job) (h : j.active = false) :
    update_ready ev j = j := by
  rw [update_ready_eq, h]
  simp

theorem depAll_congr {p q : Nat → Bool} (hpq : ∀ d, p d = q d) :
    ∀ ds : List Nat, ds.all p = ds.all q := by
  intro ds
  induction ds with
  | nil => rfl
  | cons d ds ih => rw [List.all_cons, List.all_cons, hpq d, ih]

theorem filter_complete_all_map (f : Job → Job) (hrec : ∀ j, (f j).recipe = j.recipe)
    (hcom : ∀ j, (f j).complete = j.complete) (dep : Nat) :
    ∀ js : List Job,
      (((js.map f).filter fun x => x.recipe.rid == dep).all fun x => x.complete) =
      ((js.filter fun x => x.recipe.rid == dep).all fun x => x.complete) := by
  intro js
  induction js with
  | nil => rfl
  | cons j js ih =>
    simp only [List.map_cons, List.filter_cons, hrec j]
    split
    · simp only [List.all_cons, hcom j, ih]
    · exact ih

theorem deps_met_map (e : Event) (f : Job → Job) (hrec : ∀ j, (f j).recipe = j.recipe)
    (hcom : ∀ j, (f j).complete = j.complete) (j : Job) :
    deps_met { e with jobs := e.jobs.map f } j = deps_met e j := by
  unfold deps_met
  exact depAll_congr (fun dep => filter_complete_all_map f hrec hcom dep e.jobs) _

theorem event_status_map (e : Event) (f : Job → Job)
    (hsr : ∀ j, (f j).step_results = j.step_results) :
    event_status { e with jobs := e.jobs.map f } = event_status e := by
  unfold event_status
  show get_status ((e.jobs.map f).map job_status).toFinset = _
  rw [List.map_map,
     List.map_congr_left fun j (_ : j ∈ e.jobs) => by
       show job_status (f j) = job_status j
       unfold job_status
       rw [hsr j]]

theorem filter_complete_length_map (f : Job → Job) (hcom : ∀ j, (f j).complete = j.complete) :
    ∀ js : List Job,
      ((js.map f).filter fun x => x.complete).length =
      ((js.filter fun x => x.complete).length) := by
  intro js
  induction js with
  | nil => rfl
  | cons j js ih =>
    simp only [List.map_cons, List.filter_cons, hcom j]
    split
    · simp only [List.length_cons, ih]
    · exact ih

theorem allComplete_map (e : Event) (f : Job → Job)
    (hcom : ∀ j, (f j).complete = j.complete) :
    allComplete { e with jobs := e.jobs.map f } = allComplete e := by
  unfold allComplete
  show (((e.jobs.map f).length == _ : Bool)) = _
  rw [List.length_map, filter_complete_length_map f hcom]

theorem update_ready_idem (e : Event) (j : Job) :
    update_ready { e with jobs := e.jobs.map (update_ready e) } (update_ready e j) =
      update_ready e j := by
  by_cases hact : j.active = true
  · have h1 : (update_ready e j).active = true := by rw [update_ready_active]; exact hact
    have hr : (update_ready e j).ready = deps_met e j := update_ready_ready_val e j hact
    have hd1 : deps_met { e with jobs := e.jobs.map (update_ready e) } (update_ready e j) =
        deps_met e (update_ready e j) :=
      deps_met_map e (update_ready e) (update_ready_recipe e) (update_ready_complete e) _
    have hd2 : deps_met e (update_ready e j) = deps_met e j := by
      unfold deps_met
      rw [update_ready_recipe]
    rw [update_ready_eq, if_pos h1, hd1, hd2, ← hr]
  · have hact' : j.active = false := by simpa using hact
    rw [update_ready_of_inactive e j hact']
    exact update_ready_of_inactive _ j hact'

theorem mjr_idem (e : Event) : make_jobs_ready (make_jobs_ready e) = make_jobs_ready e := by
  by_cases hA : allComplete e = true
  · rw [mjr_all_complete hA]
    rw [mjr_all_complete (show allComplete { e with complete := true } = true from hA)]
  · have hA' : allComplete e = false := by simpa using hA
    by_cases hFC : (event_status e == JobStatus.FAILED ||
        event_status e == JobStatus.CANCELED) = true
    · rw [mjr_failfast hA' hFC, mjr_failfast hA' hFC]
    · have hFC' : (event_status e == JobStatus.FAILED ||
          event_status e == JobStatus.CANCELED) = false := by simpa using hFC
      rw [mjr_main hA' hFC']
      have hst : event_status { e with jobs := e.jobs.map (update_ready e) } = event_status e :=
        event_status_map e (update_ready e) (update_ready_steps e)
      have hac : allComplete { e with jobs := e.jobs.map (update_ready e) } = allComplete e :=
        allComplete_map e (update_ready e) (update_ready_complete e)
      have hA1 : allComplete { e with jobs := e.jobs.map (update_ready e) } = false := by
        rw [hac]; exact hA'
      have hFC1 : (event_status { e with jobs := e.jobs.map (update_ready e) } == JobStatus.FAILED ||
          event_status { e with jobs := e.jobs.map (update_ready e) } == JobStatus.CANCELED) = false := by
        rw [hst]; exact hFC'
      rw [mjr_main hA1 hFC1]
      have hjobs : ({ e with jobs := e.jobs.map (update_ready e) } : Event).jobs.map
          (update_ready { e with jobs := e.jobs.map (update_ready e) }) =
          ({ e with jobs := e.jobs.map (update_ready e) } : Event).jobs := by
        show (e.jobs.map (update_ready e)).map _ = e.jobs.map (update_ready e)
        rw [List.map_map]
        exact List.map_congr_left fun j _ => update_ready_idem e j
      rw [hjobs]

theorem mjr_hasJob (rid c : Nat) (e : Event) :
    hasJob rid c (make_jobs_ready e).jobs = hasJob rid c e.jobs := by
  by_cases hA : allComplete e = true
  · rw [mjr_all_complete hA]
  · have hA' : allComplete e = false := by simpa using hA
    by_cases hFC : (event_status e == JobStatus.FAILED ||
        event_status e == JobStatus.CANCELED) = true
    · rw [mjr_failfast hA' hFC]
    · have hFC' : (event_status e == JobStatus.FAILED ||
          event_status e == JobStatus.CANCELED) = false := by simpa using hFC
      rw [mjr_main hA' hFC']
      exact hasJob_map (update_ready e) (update_ready_recipe e) (update_ready_config e) e.jobs

/-! ## Push idempotence (C8): save-level lemmas -/

theorem pushProcess_idem (inp : PushInput) (e : Event) :
    pushProcess inp (pushProcess inp e) = pushProcess inp e := by
  have hprp : processRecipesPush inp.recipes
      (make_jobs_ready (processRecipesPush inp.recipes e)) =
      make_jobs_ready (processRecipesPush inp.recipes e) := by
    unfold processRecipesPush
    have hpairs : ∀ r ∈ inp.recipes, r.active = true → ∀ c ∈ r.build_configs,
        hasJob r.rid c
          (make_jobs_ready { e with jobs := prpJobs inp.recipes e.jobs }).jobs = true := by
      intro r hr hact c hc
      rw [mjr_hasJob]
      exact prpJobs_has inp.recipes hr hact hc e.jobs
    rw [prpJobs_noop hpairs]
  show make_jobs_ready (processRecipesPush inp.recipes
      (make_jobs_ready (processRecipesPush inp.recipes e))) = _
  rw [hprp, mjr_idem]
  rfl

theorem mjr_base_fields (e : Event) :
    (make_jobs_ready e).build_user = e.build_user ∧ (make_jobs_ready e).head = e.head ∧
    (make_jobs_ready e).base = e.base ∧ (make_jobs_ready e).cause = e.cause := by
  unfold make_jobs_ready
  repeat' split
  all_goals exact ⟨rfl, rfl, rfl, rfl⟩

theorem pushProcess_fields (inp : PushInput) (e : Event) :
    (pushProcess inp e).build_user = e.build_user ∧ (pushProcess inp e).head = e.head ∧
    (pushProcess inp e).base = e.base ∧ (pushProcess inp e).cause = e.cause := by
  unfold pushProcess
  exact mjr_base_fields _

theorem eventMatches_pushProcess (inp : PushInput) (ev : Event)
    (hm : eventMatches inp ev = true) (hc : (pushProcess inp ev).complete = false) :
    eventMatches inp (pushProcess inp ev) = true := by
  obtain ⟨hbu, hh, hb, hcz⟩ := pushProcess_fields inp ev
  unfold eventMatches at hm ⊢
  simp only [Bool.and_eq_true, beq_iff_eq] at hm ⊢
  obtain ⟨⟨⟨⟨h1, h2⟩, h3⟩, _⟩, h5⟩ := hm
  exact ⟨⟨⟨⟨hbu.trans h1, hh.trans h2⟩, hb.trans h3⟩, hc⟩, hcz.trans h5⟩

theorem updateFirstMatch_cons_pos {p : Event → Bool} {f : Event → Event} {e : Event}
    (es : List Event) (h : p e = true) :
    updateFirstMatch p f (e :: es) = f e :: es := by
  unfold updateFirstMatch
  rw [if_pos h]

theorem updateFirstMatch_cons_neg {p : Event → Bool} {f : Event → Event} {e : Event}
    (es : List Event) (h : ¬ p e = true) :
    updateFirstMatch p f (e :: es) = e :: updateFirstMatch p f es := by
  conv_lhs => unfold updateFirstMatch
  rw [if_neg h]

theorem updateFirstMatch_find? {p : Event → Bool} {f : Event → Event} :
    ∀ (db : List Event) (ev : Event), db.find? p = some ev → p (f ev) = true →
      (updateFirstMatch p f db).find? p = some (f ev) := by
  intro db
  induction db with
  | nil =>
    intro ev h _
    exact absurd h (by simp)
  | cons e es ih =>
    intro ev hfind hp
    by_cases hpe : p e = true
    · rw [List.find?_cons_of_pos _ hpe] at hfind
      injection hfind with heq
      subst heq
      rw [updateFirstMatch_cons_pos es hpe]
      exact List.find?_cons_of_pos _ hp
    · rw [List.find?_cons_of_neg _ hpe] at hfind
      rw [updateFirstMatch_cons_neg es hpe, List.find?_cons_of_neg _ hpe]
      exact ih ev hfind hp

theorem updateFirstMatch_idem {p : Event → Bool} {f : Event → Event} :
    ∀ (db : List Event) (ev : Event), db.find? p = some ev → p (f ev) = true →
      f (f ev) = f ev →
      updateFirstMatch p f (updateFirstMatch p f db) = updateFirstMatch p f db := by
  intro db
  induction db with
  | nil =>
    intro ev h _ _
    exact absurd h (by simp)
  | cons e es ih =>
    intro ev hfind hp hff
    by_cases hpe : p e = true
    · rw [List.find?_cons_of_pos _ hpe] at hfind
      injection hfind with heq
      subst heq
      rw [updateFirstMatch_cons_pos es hpe, updateFirstMatch_cons_pos es hp, hff]
    · rw [List.find?_cons_of_neg _ hpe] at hfind
      rw [updateFirstMatch_cons_neg es hpe, updateFirstMatch_cons_neg _ hpe]
      exact congrArg (List.cons e) (ih ev hfind hp hff)

theorem updateFirstMatch_append_none {p : Event → Bool} {f : Event → Event} :
    ∀ (db : List Event), db.find? p = none →
      ∀ l : List Event, updateFirstMatch p f (db ++ l) = db ++ updateFirstMatch p f l := by
  intro db
  induction db with
  | nil =>
    intro _ l
    rfl
  | cons e es ih =>
    intro hnone l
    have hpe : ¬ p e = true := by
      intro hp
      rw [List.find?_cons_of_pos _ hp] at hnone
      exact Option.noConfusion hnone
    rw [List.find?_cons_of_neg _ hpe] at hnone
    rw [List.cons_append, updateFirstMatch_cons_neg _ hpe, ih hnone l]
    rfl

/-- C8 counterexample: a push input whose single matching recipe has no
build configuration.  The first save materializes an event with no jobs,
which make_jobs_ready immediately completes; since the Event
get_or_create lookup keys include complete=False, the second identical
invocation misses and creates a second Event. -/
theorem claim_C8_counterexample :
    (PushEvent_save noConfigInput []).length = 1 ∧
    (PushEvent_save noConfigInput (PushEvent_save noConfigInput [])).length = 2 := by
  decide

/-- C8 amended: invoking PushEvent.save twice with identical input is
idempotent provided the event materialized by the first invocation is
still incomplete when the second runs (which holds whenever at least one
job exists for it): the second invocation finds the same Event, creates
no duplicate Jobs, and leaves the whole event table unchanged. -/
theorem claim_C8_push_save_idempotent (inp : PushInput) (db : List Event)
    (hne : inp.recipes ≠ []) (hinc : (pushSaveEvent inp db).complete = false) :
    PushEvent_save inp (PushEvent_save inp db) = PushEvent_save inp db := by
  have hempty : inp.recipes.isEmpty = false := by
    cases hr : inp.recipes with
    | nil => exact absurd hr hne
    | cons a as => rfl
  cases hfind : db.find? (eventMatches inp) with
  | some ev =>
    have hpe : eventMatches inp ev = true := List.find?_some hfind
    have hcomp : (pushProcess inp ev).complete = false := by
      have hse : pushSaveEvent inp db = pushProcess inp ev := by
        unfold pushSaveEvent
        rw [hfind]
        rfl
      rw [hse] at hinc
      exact hinc
    have hmatch : eventMatches inp (pushProcess inp ev) = true :=
      eventMatches_pushProcess inp ev hpe hcomp
    have hidem : pushProcess inp (pushProcess inp ev) = pushProcess inp ev :=
      pushProcess_idem inp ev
    have hsave1 : PushEvent_save inp db =
        updateFirstMatch (eventMatches inp) (pushProcess inp) db := by
      unfold PushEvent_save
      rw [hempty, if_neg Bool.false_ne_true, hfind]
    rw [hsave1]
    have hfind1 : (updateFirstMatch (eventMatches inp) (pushProcess inp) db).find?
        (eventMatches inp) = some (pushProcess inp ev) :=
      updateFirstMatch_find? db ev hfind hmatch
    unfold PushEvent_save
    rw [hempty, if_neg Bool.false_ne_true, hfind1]
    exact updateFirstMatch_idem db ev hfind hmatch hidem
  | none =>
    have hcomp : (pushProcess inp (newPushEvent inp)).complete = false := by
      have hse : pushSaveEvent inp db = pushProcess inp (newPushEvent inp) := by
        unfold pushSaveEvent
        rw [hfind]
        rfl
      rw [hse] at hinc
      exact hinc
    have hmatch : eventMatches inp (pushProcess inp (newPushEvent inp)) = true :=
      eventMatches_pushProcess inp (newPushEvent inp)
        (by simp [eventMatches, newPushEvent]) hcomp
    have hidem : pushProcess inp (pushProcess inp (newPushEvent inp)) =
        pushProcess inp (newPushEvent inp) := pushProcess_idem inp (newPushEvent inp)
    have hsave1 : PushEvent_save inp db = db ++ [pushProcess inp (newPushEvent inp)] := by
      unfold PushEvent_save
      rw [hempty, if_neg Bool.false_ne_true, hfind]
    rw [hsave1]
    have hfind1 : (db ++ [pushProcess inp (newPushEvent inp)]).find? (eventMatches inp) =
        some (pushProcess inp (newPushEvent inp)) := by
      rw [List.find?_append, hfind, Option.none_or, List.find?_cons_of_pos _ hmatch]
    unfold PushEvent_save
    rw [hempty, if_neg Bool.false_ne_true, hfind1]
    rw [updateFirstMatch_append_none db hfind, updateFirstMatch_cons_pos _ hmatch, hidem]

/-- Witness for the amended C8: an ordinary one-recipe one-config push
into an empty table. -/
theorem claim_C8_witness :
    pushInput8.recipes ≠ [] ∧ (pushSaveEvent pushInput8 []).complete = false ∧
    PushEvent_save pushInput8 (PushEvent_save pushInput8 []) = PushEvent_save pushInput8 [] :=
  ⟨by decide, by decide,
   claim_C8_push_save_idempotent pushInput8 [] (by decide) (by decide)⟩

end Civet
